import Mathlib

/-!
Shallow embedding of the staggered-race Langflow client
(`test-api-langflow-interactive-alwaynewSession-parallel-withFallback.py`).

The concurrent program is modelled by explicit state passing:
* a worker (`call_single_flow_with_delay`) is a pure function of its inputs,
  where the values it would observe when polling the shared winner event are
  given as a function `sig : Nat → Bool` (the value seen at the k-th poll,
  polls being 0.5 s apart), and the backend's behaviour is an `InvokeOutcome`;
* the scheduler loop over `as_completed` is a fold of `stepOutcome` over the
  list of worker completions in completion order;
* the retry loop (`raceLoop`) recurses over attempt numbers, drawing fresh
  session ids from a supply `ids : Nat → String` (modelling `uuid.uuid4()`).
-/

set_option linter.unusedVariables false

namespace LangflowRace

/-- JSON values, as produced by `response.json()`. -/
inductive JValue where
  | null
  | bool (b : Bool)
  | num (n : Int)
  | str (s : String)
  | arr (items : List JValue)
  | obj (fields : List (String × JValue))

/-- Python `d[k]` on a parsed-JSON value: succeeds only on objects having the
key; all failing accesses raise (KeyError/TypeError), modelled as `none`. -/
def jget : JValue → String → Option JValue
  | .obj fields, k => (fields.find? (fun p => p.1 == k)).map Prod.snd
  | _, _ => none

/-- Python `v[i]` for an integer index on a parsed-JSON value: succeeds on
arrays that are long enough; failures (IndexError/TypeError) are `none`. -/
def jidx : JValue → Nat → Option JValue
  | .arr items, i => items.get? i
  | _, _ => none

/-- Embedding of `extract_message_from_response`: navigate
`response_data["outputs"][0]["outputs"][0]["results"]["message"]["text"]`,
returning the value found, or the string `""` when any access raises. -/
def extract_message_from_response (response_data : JValue) : JValue :=
  match ((((((jget response_data "outputs").bind (fun j => jidx j 0)).bind
      (fun j => jget j "outputs")).bind (fun j => jidx j 0)).bind
      (fun j => jget j "results")).bind (fun j => jget j "message")).bind
      (fun j => jget j "text") with
  | some v => v
  | none => .str ""

/-- Python's `str.strip()`: remove leading and trailing whitespace. -/
def pyStrip (s : String) : String :=
  ⟨((s.data.dropWhile Char.isWhitespace).reverse.dropWhile
      Char.isWhitespace).reverse⟩

/-- What the backend call `requests.post(...)` produces for one worker:
a parsed JSON body (transport success), a `requests.exceptions.Timeout`,
or any other exception (HTTP error status, connection failure,
unparseable body, ...). -/
inductive InvokeOutcome where
  | response (data : JValue)
  | timeout
  | error

/-- The tuple `(success, flow_id, message, elapsed, cancelled)` returned by
`call_single_flow_with_delay`. -/
structure WorkerOutcome where
  success : Bool
  flow_id : String
  message : String
  elapsed : ℚ
  cancelled : Bool
deriving DecidableEq

/-- Result of the interruptible pre-start wait: either the worker observed the
winner event set at poll index `k` and aborted, or the wait ran to completion
and the worker proceeds to invoke the backend. -/
inductive WaitResult where
  | cancelled (k : Nat)
  | proceed
deriving DecidableEq

/-- Number of iterations of the `while waited < delay_seconds` loop: `waited`
advances in 0.5 s steps, so a positive integer delay `d` gives `2*d` polls;
the loop body is skipped entirely when `delay_seconds ≤ 0` (the code guards
with `if delay_seconds > 0`). -/
def numPolls (delay_seconds : Int) : Nat :=
  if 0 < delay_seconds then (2 * delay_seconds).toNat else 0

/-- The `while waited < delay_seconds` loop of `call_single_flow_with_delay`,
with `waited` counted in half-second ticks: `w` is the index of the current
poll and the first argument the number of loop iterations still to run
(`numPolls delay_seconds` on entry, so the loop runs while `waited` is below
the delay). Each iteration first checks
`winner_event and winner_event.is_set()` (the value observed at the w-th
poll is `sig w`) and aborts if set, otherwise sleeps ≤ 0.5 s and increments
`waited`. -/
def waitLoop (hasEvent : Bool) (sig : Nat → Bool) : Nat → Nat → WaitResult
  | 0, _ => .proceed
  | remaining + 1, w =>
    if hasEvent && sig w then .cancelled w
    else waitLoop hasEvent sig remaining (w + 1)

/-- Duration of `time.sleep(min(0.5, delay_seconds - waited))` at the poll
with `waited = w/2` seconds. -/
def sleepDur (delay_seconds : Int) (w : Nat) : ℚ :=
  min (1 / 2 : ℚ) ((delay_seconds : ℚ) - (w : ℚ) / 2)

/-- Embedding of `call_single_flow_with_delay`. `input_message` and
`session_id` are forwarded to the backend inside the request payload and do
not otherwise affect the worker; the backend's behaviour is `inv`, and
`elapsed` is the measured wall-clock duration of the call. Returns the tuple
`(success, flow_id, message, elapsed, cancelled)`. -/
def call_single_flow_with_delay (flow_id input_message session_id : String)
    (delay_seconds : Int) (hasEvent : Bool) (sig : Nat → Bool)
    (inv : InvokeOutcome) (elapsed : ℚ) : WorkerOutcome :=
  match waitLoop hasEvent sig (numPolls delay_seconds) 0 with
  | .cancelled _ => ⟨false, flow_id, "", 0, true⟩
  | .proceed =>
    match inv with
    | .response response_data =>
      match extract_message_from_response response_data with
      | .str s =>
        if s != "" && pyStrip s != "" then ⟨true, flow_id, s, elapsed, false⟩
        else ⟨false, flow_id, "", elapsed, false⟩
      | _ => ⟨false, flow_id, "", elapsed, false⟩
    | .timeout => ⟨false, flow_id, "", elapsed, false⟩
    | .error => ⟨false, flow_id, "", elapsed, false⟩

/-- How many times the worker posts to the backend: once when the wait
completes, zero times when the wait was aborted by the winner event. -/
def workerInvocations (delay_seconds : Int) (hasEvent : Bool)
    (sig : Nat → Bool) : Nat :=
  match waitLoop hasEvent sig (numPolls delay_seconds) 0 with
  | .cancelled _ => 0
  | .proceed => 1

/-- Whether a backend behaviour would be classified as a success by the
worker: a parsed response whose extracted message is a non-empty,
non-whitespace string. -/
def invokeSuccess : InvokeOutcome → Bool
  | .response d =>
    match extract_message_from_response d with
    | .str s => s != "" && pyStrip s != ""
    | _ => false
  | .timeout => false
  | .error => false

/-- Per-worker stagger delay, line `delay = idx * stagger_delay`. -/
def delayFor (stagger_delay : Int) (idx : Nat) : Int :=
  (idx : Int) * stagger_delay

/-- One completed worker as observed by the `as_completed` loop: the returned
tuple, the delay recorded at submit time, and the wall-clock time since
`overall_start` at which the scheduler processes this completion (the value
`time.time() - overall_start` would have there). -/
structure Completion where
  outcome : WorkerOutcome
  delay : Int
  obsTime : ℚ
deriving DecidableEq

/-- One dictionary appended to `all_results`. -/
structure ResultEntry where
  flow_id : String
  success : Bool
  message : String
  elapsed : ℚ
  delay : Int
  total_time : ℚ
deriving DecidableEq

/-- The `all_results` dictionary built from one completion. -/
def entryOf (c : Completion) : ResultEntry :=
  ⟨c.outcome.flow_id, c.outcome.success, c.outcome.message, c.outcome.elapsed,
   c.delay, c.outcome.elapsed + (c.delay : ℚ)⟩

/-- Mutable state of one attempt of `call_langflow_staggered_race`:
the shared `winner_event`, the local `winner_found` flag, the accumulated
`all_results` list, and the value returned by the early `return message,
flow_id, overall_elapsed` once a winner is declared (`none` while the loop
is still running). -/
structure AttemptState where
  winner_event : Bool
  winner_found : Bool
  all_results : List ResultEntry
  returned : Option (String × String × ℚ)
deriving DecidableEq

/-- State at the top of an attempt: `winner_event = threading.Event()` fresh
(unset), `winner_found = False`, `all_results = []`, nothing returned. -/
def initState : AttemptState :=
  ⟨false, false, [], none⟩

/-- One iteration of the `for future in as_completed(futures)` body. Once the
function has returned (`returned.isSome`) the loop is no longer running, so
further completions change nothing. A cancelled outcome is skipped
(`continue`); otherwise it is appended to `all_results`, and the first
success declares the winner: sets `winner_found`, sets the event, and
returns `(message, flow_id, overall_elapsed)`. -/
def stepOutcome (s : AttemptState) (c : Completion) : AttemptState :=
  if s.returned.isSome then s
  else if c.outcome.cancelled then s
  else
    let s2 : AttemptState :=
      ⟨s.winner_event, s.winner_found, s.all_results ++ [entryOf c], s.returned⟩
    if c.outcome.success && !s.winner_found then
      ⟨true, true, s2.all_results,
       some (c.outcome.message, c.outcome.flow_id, c.obsTime)⟩
    else s2

/-- Running one attempt: fold the loop body over the completions in
completion order, starting from the fresh state. -/
def attemptRun (cos : List Completion) : AttemptState :=
  cos.foldl stepOutcome initState

/-- Whether a completion is the kind that declares a winner: not cancelled
and successful. -/
def isWinnerOutcome (c : Completion) : Bool :=
  !c.outcome.cancelled && c.outcome.success

/-- The first completion, in completion order, that is a non-cancelled
success. -/
def firstWinner (cos : List Completion) : Option Completion :=
  cos.find? isWinnerOutcome

/-- The completions the loop actually iterates over: everything up to and
including the first non-cancelled success (the early return stops the
iteration there), or all of them when no winner occurs. -/
def observedCompletions : List Completion → List Completion
  | [] => []
  | c :: rest =>
    if isWinnerOutcome c then [c] else c :: observedCompletions rest

/-- The inputs determining one worker of one attempt: the backend behaviour
it would see, the measured call duration, the winner-event values it would
observe at its polls, and the time at which the scheduler processes its
completion. -/
structure WorkerInput where
  inv : InvokeOutcome
  elapsed : ℚ
  sig : Nat → Bool
  obsTime : ℚ

/-- The completion list of one attempt: workers are submitted with delays
`idx * stagger_delay` against the flow list, and complete in the order given
by `order` (indices into the flow list). -/
def attemptCompletions (flowIds : List String) (input_message session_id : String)
    (stagger_delay : Int) (inputs : Nat → WorkerInput) (order : List Nat) :
    List Completion :=
  order.map (fun j =>
    { outcome := call_single_flow_with_delay (flowIds.getD j "") input_message
        session_id (delayFor stagger_delay j) true (inputs j).sig (inputs j).inv
        (inputs j).elapsed,
      delay := delayFor stagger_delay j,
      obsTime := (inputs j).obsTime })

/-- Record of one executed attempt: its 1-based number, the `session_id` it
used, its final loop state, and whether the unconditional
`time.sleep(retry_delay)` cooldown ran after it. -/
structure AttemptRecord where
  attemptNo : Nat
  session_id : String
  finalState : AttemptState
  sleptAfter : Bool
deriving DecidableEq

/-- Final result of `call_langflow_staggered_race`: either the returned
`(message, flow_id, overall_elapsed)` of a winning attempt, or the terminal
exception carrying `len(FLOW_IDS) * max_retries`, the total number of flows
tried. -/
inductive RaceFinal where
  | success (message flow_id : String) (overall_elapsed : ℚ)
  | exhausted (total_flows_tried : Nat)
deriving DecidableEq

/-- The `for attempt in range(1, max_retries + 1)` loop. `data k` is the
completion list of attempt `k`; `ids k` is the k-th value drawn from
`str(uuid.uuid4())` (`ids 0` is drawn before the loop, and a failed
non-final attempt `k` draws `ids k` for the next attempt);
`backendCount = len(FLOW_IDS)`. The first `Nat` argument counts the loop
iterations still to run (`max_retries + 1 - attempt`, so `attempt <
max_retries`, the Python guard for sleeping the cooldown and retrying,
reads `remaining ≠ 0`); the second is the current 1-based `attempt`.
Returns the final result together with the records of all attempts
performed, in order. -/
def raceLoop (data : Nat → List Completion) (ids : Nat → String)
    (max_retries backendCount : Nat) :
    Nat → Nat → RaceFinal × List AttemptRecord
  | 0, _ => (.exhausted (backendCount * max_retries), [])
  | remaining + 1, attempt =>
    match (attemptRun (data attempt)).returned with
    | some (msg, fid, t) =>
      (.success msg fid t,
       [⟨attempt, ids (attempt - 1), attemptRun (data attempt), false⟩])
    | none =>
      if remaining = 0 then
        (.exhausted (backendCount * max_retries),
         [⟨attempt, ids (attempt - 1), attemptRun (data attempt), false⟩])
      else
        let rest := raceLoop data ids max_retries backendCount remaining (attempt + 1)
        (rest.1, ⟨attempt, ids (attempt - 1), attemptRun (data attempt), true⟩ :: rest.2)

/-- Embedding of `call_langflow_staggered_race`: run the retry loop from
attempt 1 with `max_retries` iterations ahead, the completion list of
attempt `k` being built from that attempt's worker inputs, completion
order, and session id `ids (k - 1)`. -/
def call_langflow_staggered_race (flowIds : List String) (input_message : String)
    (stagger_delay : Int) (inputs : Nat → Nat → WorkerInput)
    (orders : Nat → List Nat) (ids : Nat → String) (max_retries : Nat) :
    RaceFinal × List AttemptRecord :=
  raceLoop
    (fun k => attemptCompletions flowIds input_message (ids (k - 1)) stagger_delay
      (inputs k) (orders k))
    ids max_retries flowIds.length max_retries 1

/-- After the early return has fired, a loop iteration changes nothing. -/
theorem stepOutcome_frozen (s : AttemptState) (c : Completion)
    (h : s.returned.isSome) : stepOutcome s c = s := by
  simp [stepOutcome, h]

/-- After the early return has fired, the whole remaining loop changes
nothing. -/
theorem foldl_frozen (l : List Completion) (s : AttemptState)
    (h : s.returned.isSome) : l.foldl stepOutcome s = s := by
  induction l with
  | nil => rfl
  | cons c rest ih => rw [List.foldl_cons, stepOutcome_frozen s c h]; exact ih

/-- Closed form of the `as_completed` loop, for any starting value of the
accumulated `all_results`: the event and flag end up set exactly when a
non-cancelled success occurs, the collected entries are the non-cancelled
completions among those iterated over (up to and including the first
winner), and the returned triple comes from the first winner. -/
theorem foldl_char (cos : List Completion) :
    ∀ acc : List ResultEntry,
      cos.foldl stepOutcome ⟨false, false, acc, none⟩ =
        ⟨(firstWinner cos).isSome, (firstWinner cos).isSome,
         acc ++ ((observedCompletions cos).filter
           (fun c => !c.outcome.cancelled)).map entryOf,
         (firstWinner cos).map
           (fun c => (c.outcome.message, c.outcome.flow_id, c.obsTime))⟩ := by
  induction cos with
  | nil =>
    intro acc
    simp [firstWinner, observedCompletions]
  | cons c rest ih =>
    intro acc
    by_cases hc : c.outcome.cancelled
    · have hw : isWinnerOutcome c = false := by simp [isWinnerOutcome, hc]
      have hstep : stepOutcome ⟨false, false, acc, none⟩ c
          = ⟨false, false, acc, none⟩ := by
        simp [stepOutcome, hc]
      rw [List.foldl_cons, hstep, ih acc]
      simp [firstWinner, List.find?_cons_of_neg, hw, observedCompletions, hc]
    · by_cases hs : c.outcome.success
      · have hw : isWinnerOutcome c = true := by simp [isWinnerOutcome, hc, hs]
        have hstep : stepOutcome ⟨false, false, acc, none⟩ c
            = ⟨true, true, acc ++ [entryOf c],
               some (c.outcome.message, c.outcome.flow_id, c.obsTime)⟩ := by
          simp [stepOutcome, hc, hs]
        rw [List.foldl_cons, hstep, foldl_frozen _ _ (by simp)]
        simp [firstWinner, List.find?_cons_of_pos, hw, observedCompletions, hc]
      · have hw : isWinnerOutcome c = false := by simp [isWinnerOutcome, hs]
        have hstep : stepOutcome ⟨false, false, acc, none⟩ c
            = ⟨false, false, acc ++ [entryOf c], none⟩ := by
          simp [stepOutcome, hc, hs]
        rw [List.foldl_cons, hstep, ih (acc ++ [entryOf c])]
        simp [firstWinner, List.find?_cons_of_neg, hw, observedCompletions, hc]

/-- The value returned by one attempt is exactly the payload, backend and
observation time of the first non-cancelled success in completion order. -/
theorem attemptRun_returned (cos : List Completion) :
    (attemptRun cos).returned
      = (firstWinner cos).map
          (fun c => (c.outcome.message, c.outcome.flow_id, c.obsTime)) := by
  rw [attemptRun, initState, foldl_char cos []]

/-- The winner event ends an attempt set exactly when some non-cancelled
success was observed. -/
theorem attemptRun_event (cos : List Completion) :
    (attemptRun cos).winner_event = (firstWinner cos).isSome := by
  rw [attemptRun, initState, foldl_char cos []]

/-- The `winner_found` flag agrees with the event. -/
theorem attemptRun_found (cos : List Completion) :
    (attemptRun cos).winner_found = (firstWinner cos).isSome := by
  rw [attemptRun, initState, foldl_char cos []]

/-- The entries collected in `all_results` are exactly the non-cancelled
completions among those the loop iterated over. -/
theorem attemptRun_results (cos : List Completion) :
    (attemptRun cos).all_results
      = ((observedCompletions cos).filter
          (fun c => !c.outcome.cancelled)).map entryOf := by
  rw [attemptRun, initState, foldl_char cos []]
  simp

/-- Once an attempt has returned, later completions change nothing at all. -/
theorem attemptRun_append_frozen (cos extra : List Completion)
    (h : (attemptRun cos).returned.isSome) :
    attemptRun (cos ++ extra) = attemptRun cos := by
  rw [attemptRun, List.foldl_append]
  exact foldl_frozen extra _ h

/-- The polling wait is the first hit of the observed signal over the poll
indices `w, w+1, ..., w+n-1`. -/
theorem waitLoop_eq_find (hasEvent : Bool) (sig : Nat → Bool) :
    ∀ (n w : Nat),
      waitLoop hasEvent sig n w =
        (match (List.range' w n).find? (fun k => hasEvent && sig k) with
         | some k => WaitResult.cancelled k
         | none => WaitResult.proceed) := by
  intro n
  induction n with
  | zero =>
    intro w
    simp [waitLoop, List.range']
  | succ m ih =>
    intro w
    by_cases hs : hasEvent && sig w
    · rw [waitLoop, if_pos hs]
      simp [List.range', List.find?_cons_of_pos, hs]
    · have hneg : (fun k => hasEvent && sig k) w = false := by
        simpa using hs
      rw [waitLoop, if_neg hs, ih (w + 1)]
      simp [List.range', List.find?_cons_of_neg, hneg]

/-- The full wait from poll 0, phrased over `List.range`. -/
theorem waitLoop_zero_eq_find (hasEvent : Bool) (sig : Nat → Bool) (t : Nat) :
    waitLoop hasEvent sig t 0 =
      (match (List.range t).find? (fun k => hasEvent && sig k) with
       | some k => WaitResult.cancelled k
       | none => WaitResult.proceed) := by
  rw [List.range_eq_range']
  exact waitLoop_eq_find hasEvent sig t 0

/-- What a successful `find?` over `range'` means: the found index satisfies
the predicate, lies in the range, and is the least such index. -/
theorem find?_range'_spec (p : Nat → Bool) :
    ∀ (n w k : Nat), (List.range' w n).find? p = some k →
      p k = true ∧ w ≤ k ∧ k < w + n ∧ ∀ j, w ≤ j → j < k → p j = false := by
  intro n
  induction n with
  | zero => intro w k h; simp [List.range'] at h
  | succ m ih =>
    intro w k h
    rw [show List.range' w (m + 1) = w :: List.range' (w + 1) m from rfl] at h
    by_cases hp : p w
    · rw [List.find?_cons_of_pos _ hp] at h
      obtain rfl : w = k := by simpa using h
      exact ⟨hp, le_refl w, by omega, fun j h1 h2 => absurd h1 (by omega)⟩
    · rw [List.find?_cons_of_neg _ (by simpa using hp)] at h
      obtain ⟨hk, hwk, hlt, hmin⟩ := ih (w + 1) k h
      refine ⟨hk, by omega, by omega, fun j h1 h2 => ?_⟩
      rcases Nat.eq_or_lt_of_le h1 with rfl | h1'
      · simpa using hp
      · exact hmin j h1' h2

/-- A signal observation during the poll window forces `find?` to hit. -/
theorem find?_range_isSome (p : Nat → Bool) (t k : Nat) (hk : k < t)
    (hp : p k = true) : ((List.range t).find? p).isSome := by
  rw [List.find?_isSome]
  exact ⟨k, by simpa using hk, hp⟩

/-- The worker succeeds exactly when its wait completed and the backend
behaviour classifies as a success. -/
theorem worker_success_eq (flow_id input_message session_id : String)
    (d : Int) (hasEvent : Bool) (sig : Nat → Bool) (inv : InvokeOutcome)
    (el : ℚ) :
    (call_single_flow_with_delay flow_id input_message session_id d hasEvent
        sig inv el).success
      = (decide (waitLoop hasEvent sig (numPolls d) 0 = .proceed)
          && invokeSuccess inv) := by
  cases hwl : waitLoop hasEvent sig (numPolls d) 0 with
  | cancelled k => simp [call_single_flow_with_delay, hwl]
  | proceed =>
    cases inv with
    | response dta =>
      cases hx : extract_message_from_response dta with
      | str s =>
        by_cases hgood : s != "" && pyStrip s != "" <;>
          simp [call_single_flow_with_delay, hwl, invokeSuccess, hx, hgood]
      | null => simp [call_single_flow_with_delay, hwl, invokeSuccess, hx]
      | bool b => simp [call_single_flow_with_delay, hwl, invokeSuccess, hx]
      | num n => simp [call_single_flow_with_delay, hwl, invokeSuccess, hx]
      | arr l => simp [call_single_flow_with_delay, hwl, invokeSuccess, hx]
      | obj l => simp [call_single_flow_with_delay, hwl, invokeSuccess, hx]
    | timeout => simp [call_single_flow_with_delay, hwl, invokeSuccess]
    | error => simp [call_single_flow_with_delay, hwl, invokeSuccess]

/-- If every backend behaviour of an attempt classifies as a failure, the
attempt has no winner: nothing is returned. -/
theorem attempt_nowinner_of_invoker_fail (flowIds : List String)
    (input_message session_id : String) (stagger_delay : Int)
    (inputs : Nat → WorkerInput) (order : List Nat)
    (h : ∀ j ∈ order, invokeSuccess (inputs j).inv = false) :
    (attemptRun (attemptCompletions flowIds input_message session_id
        stagger_delay inputs order)).returned = none := by
  rw [attemptRun_returned]
  have hnone : firstWinner (attemptCompletions flowIds input_message session_id
      stagger_delay inputs order) = none := by
    rw [firstWinner, List.find?_eq_none]
    intro c hc
    rw [attemptCompletions, List.mem_map] at hc
    obtain ⟨j, hj, rfl⟩ := hc
    simp only [isWinnerOutcome, Bool.and_eq_true, Bool.not_eq_true']
    intro hcon
    rw [worker_success_eq, h j hj, Bool.and_false] at hcon
    exact absurd hcon.2 (by simp)
  rw [hnone]
  rfl

/-- Shape of the record list: whenever the loop body runs at all, the first
record is that of the current attempt, carrying its session id and its
final state computed from the fresh initial state. -/
theorem raceLoop_head (data : Nat → List Completion) (ids : Nat → String)
    (m N r a : Nat) :
    ∃ slept tail,
      (raceLoop data ids m N (r + 1) a).2
        = ⟨a, ids (a - 1), attemptRun (data a), slept⟩ :: tail := by
  rw [raceLoop]
  cases hr : (attemptRun (data a)).returned with
  | some v =>
    obtain ⟨msg, fid, t⟩ := v
    exact ⟨false, [], rfl⟩
  | none =>
    by_cases h2 : r = 0
    · rw [if_pos h2]
      exact ⟨false, [], rfl⟩
    · rw [if_neg h2]
      exact ⟨true, _, rfl⟩

/-- The loop performs at most as many attempts as it has iterations left. -/
theorem raceLoop_len (data : Nat → List Completion) (ids : Nat → String)
    (m N : Nat) :
    ∀ (r a : Nat), (raceLoop data ids m N r a).2.length ≤ r := by
  intro r
  induction r with
  | zero => intro a; simp [raceLoop]
  | succ g ih =>
    intro a
    rw [raceLoop]
    cases hr : (attemptRun (data a)).returned with
    | some v =>
      obtain ⟨msg, fid, t⟩ := v
      simp
    | none =>
      by_cases h2 : g = 0
      · rw [if_pos h2]
        simp
      · rw [if_neg h2]
        have := ih (a + 1)
        simp only [List.length_cons]
        omega

/-- Every attempt record's final state was computed by running that
attempt's completions from the fresh initial state, with the session id of
its attempt number, the attempt numbers counting up from the start. -/
theorem raceLoop_records (data : Nat → List Completion) (ids : Nat → String)
    (m N : Nat) :
    ∀ (r a : Nat), ∀ x ∈ (raceLoop data ids m N r a).2,
      x.finalState = attemptRun (data x.attemptNo)
        ∧ x.session_id = ids (x.attemptNo - 1)
        ∧ a ≤ x.attemptNo ∧ x.attemptNo < a + r := by
  intro r
  induction r with
  | zero => intro a x hx; simp [raceLoop] at hx
  | succ g ih =>
    intro a x hx
    rw [raceLoop] at hx
    cases hr : (attemptRun (data a)).returned with
    | some v =>
      obtain ⟨msg, fid, t⟩ := v
      rw [hr] at hx
      simp only [List.mem_singleton] at hx
      subst hx
      exact ⟨rfl, rfl, le_refl a, by show a < a + (g + 1); omega⟩
    | none =>
      rw [hr] at hx
      by_cases h2 : g = 0
      · rw [if_pos h2] at hx
        simp only [List.mem_singleton] at hx
        subst hx
        exact ⟨rfl, rfl, le_refl a, by show a < a + (g + 1); omega⟩
      · rw [if_neg h2] at hx
        rw [List.mem_cons] at hx
        rcases hx with rfl | hx
        · exact ⟨rfl, rfl, le_refl a, by show a < a + (g + 1); omega⟩
        · obtain ⟨e1, e2, e3, e4⟩ := ih (a + 1) x hx
          exact ⟨e1, e2, by omega, by omega⟩

/-- When no attempt in the remaining window has a winner, the loop runs
them all, raises the terminal exception with `backendCount * max_retries`
flows tried, and records each attempt, sleeping the cooldown after every
attempt except the last. -/
theorem raceLoop_allfail (data : Nat → List Completion) (ids : Nat → String)
    (m N : Nat) :
    ∀ (r a : Nat),
      (∀ k, a ≤ k → k < a + r → (attemptRun (data k)).returned = none) →
      raceLoop data ids m N r a =
        (.exhausted (N * m),
         (List.range' a r).map
           (fun t => ⟨t, ids (t - 1), attemptRun (data t),
             decide (t + 1 < a + r)⟩)) := by
  intro r
  induction r with
  | zero => intro a hfail; simp [raceLoop, List.range']
  | succ g ih =>
    intro a hfail
    rw [raceLoop, hfail a (le_refl a) (by omega)]
    have hcons : List.range' a (g + 1) = a :: List.range' (a + 1) g := rfl
    by_cases h2 : g = 0
    · subst h2
      rw [if_pos rfl, hcons]
      simp
    · rw [if_neg h2]
      rw [ih (a + 1) (fun k hk1 hk2 => hfail k (by omega) (by omega))]
      rw [hcons]
      have h3 : a + 1 + g = a + (g + 1) := by omega
      have h5 : decide (a + 1 < a + (g + 1)) = true := decide_eq_true (by omega)
      simp [h3, h5]
      omega

/-- When the first `j` attempts of the remaining window all fail and more
iterations remain, the loop records each of them with the cooldown slept,
then continues from attempt `a + j`. -/
theorem raceLoop_fail_to (data : Nat → List Completion) (ids : Nat → String)
    (m N : Nat) :
    ∀ (j r a : Nat), j < r →
      (∀ t, a ≤ t → t < a + j → (attemptRun (data t)).returned = none) →
      raceLoop data ids m N r a =
        ((raceLoop data ids m N (r - j) (a + j)).1,
         (List.range' a j).map
           (fun t => ⟨t, ids (t - 1), attemptRun (data t), true⟩)
           ++ (raceLoop data ids m N (r - j) (a + j)).2) := by
  intro j
  induction j with
  | zero => intro r a hjr hfail; simp [List.range']
  | succ g ih =>
    intro r a hjr hfail
    obtain ⟨r2, rfl⟩ : ∃ r2, r = r2 + 1 := ⟨r - 1, by omega⟩
    rw [raceLoop, hfail a (le_refl a) (by omega), if_neg (by omega : ¬ r2 = 0)]
    rw [ih r2 (a + 1) (by omega) (fun t ht1 ht2 => hfail t (by omega) (by omega))]
    have h1 : r2 + 1 - (g + 1) = r2 - g := by omega
    have h2 : a + (g + 1) = (a + 1) + g := by omega
    have hcons : List.range' a (g + 1) = a :: List.range' (a + 1) g := rfl
    rw [h1, h2, hcons]
    rfl

/-- Sample completion: a non-cancelled success from flow "A". -/
def cWinA : Completion :=
  ⟨⟨true, "A", "hello", 2, false⟩, 0, 2⟩

/-- Sample completion: a later non-cancelled success from flow "B". -/
def cWinB : Completion :=
  ⟨⟨true, "B", "world", 1, false⟩, 7, 9⟩

/-- Sample completion: a non-cancelled failure from flow "C". -/
def cFailC : Completion :=
  ⟨⟨false, "C", "", 3, false⟩, 14, 17⟩

/-- Sample completion: a worker cancelled during its delay. -/
def cCanD : Completion :=
  ⟨⟨false, "D", "", 0, true⟩, 21, 5⟩

/-- C1: the scheduler observes worker outcomes in completion order, and the
first non-cancelled outcome with `ok = true` is declared the winner: the
winner signal is set, the returned race result carries that outcome's
payload, its backend, and the elapsed time since the attempt started, and
once declared the winner never changes, so at most one winner is ever
declared per attempt. -/
theorem C1_first_success_wins (cos extra : List Completion) :
    (attemptRun cos).returned
        = (firstWinner cos).map
            (fun c => (c.outcome.message, c.outcome.flow_id, c.obsTime))
      ∧ (attemptRun cos).winner_event = (firstWinner cos).isSome
      ∧ ((attemptRun cos).returned.isSome →
          (attemptRun (cos ++ extra)).returned = (attemptRun cos).returned) := by
  refine ⟨attemptRun_returned cos, attemptRun_event cos, fun h => ?_⟩
  rw [attemptRun_append_frozen cos extra h]

/-- Witness for C1 at a concrete completion order: the failure from "C" is
skipped, "A" wins with its payload and observation time, and a success
completing after the winner does not change the result. -/
theorem C1_first_success_wins_witness :
    (attemptRun [cFailC, cWinA]).returned = some ("hello", "A", 2)
      ∧ (attemptRun ([cFailC, cWinA] ++ [cWinB])).returned
          = some ("hello", "A", 2) := by
  have h := C1_first_success_wins [cFailC, cWinA] [cWinB]
  have h1 : (attemptRun [cFailC, cWinA]).returned = some ("hello", "A", 2) := by
    rw [h.1]
    rfl
  refine ⟨h1, ?_⟩
  rw [h.2.2 (by rw [h1]; rfl), h1]

/-- C2: a worker whose delay has not elapsed when the winner signal is set
never invokes the backend: during its delay it polls the signal, each
inter-poll sleep lasting at most 0.5 s, and it aborts at the first poll
that observes the signal set, returning `cancelled = true` with no
payload. -/
theorem C2_cancel_during_delay (flow_id input_message session_id : String)
    (d : Int) (sig : Nat → Bool) (inv : InvokeOutcome) (el : ℚ)
    (hobs : ∃ k, k < numPolls d ∧ sig k = true) :
    (∃ k0, sig k0 = true ∧ k0 < numPolls d ∧ (∀ j, j < k0 → sig j = false)
        ∧ waitLoop true sig (numPolls d) 0 = .cancelled k0)
      ∧ call_single_flow_with_delay flow_id input_message session_id d true
          sig inv el = ⟨false, flow_id, "", 0, true⟩
      ∧ workerInvocations d true sig = 0
      ∧ (∀ w, sleepDur d w ≤ 1 / 2) := by
  obtain ⟨k, hk, hsk⟩ := hobs
  have hsome : ((List.range (numPolls d)).find?
      (fun j => true && sig j)).isSome := by
    rw [List.find?_isSome]
    exact ⟨k, by simpa using hk, by simpa using hsk⟩
  obtain ⟨k0, hfind⟩ := Option.isSome_iff_exists.mp hsome
  have hspec := find?_range'_spec (fun j => true && sig j) (numPolls d) 0 k0
    (by rwa [List.range_eq_range'] at hfind)
  have hwl : waitLoop true sig (numPolls d) 0 = .cancelled k0 := by
    rw [waitLoop_zero_eq_find, hfind]
  refine ⟨⟨k0, by simpa using hspec.1, by omega,
      fun j hj => by simpa using hspec.2.2.2 j (by omega) hj, hwl⟩, ?_, ?_, ?_⟩
  · rw [call_single_flow_with_delay.eq_def, hwl]
  · rw [workerInvocations, hwl]
  · intro w
    exact min_le_left _ _

/-- Witness for C2: a worker with a 1 s delay that observes the signal set
at its first poll returns the cancelled tuple and performs no backend
call. -/
theorem C2_cancel_during_delay_witness :
    call_single_flow_with_delay "A" "q" "s" 1 true (fun _ => true) .timeout 3
        = ⟨false, "A", "", 0, true⟩
      ∧ workerInvocations 1 true (fun _ => true) = 0 := by
  have h := C2_cancel_during_delay "A" "q" "s" 1 (fun _ => true) .timeout 3
    ⟨0, by decide, rfl⟩
  exact ⟨h.2.1, h.2.2.1⟩

/-- C3 counterexample: the claim asserts a strictly increasing schedule for
every stagger interval, but at interval 0 (reachable through the `config`
command, `stagger_delay = int(new_delay)`) all computed delays are equal:
positions 0 and 1 both get delay 0. -/
theorem C3_counterexample :
    ¬ (∀ (d : Int) (i j : Nat), i < j → delayFor d i < delayFor d j) := by
  intro h
  have h2 := h 0 0 1 (by omega)
  rw [delayFor, delayFor] at h2
  norm_num at h2

/-- C3 amended: the computed start delay for the backend at 0-based
position `i` always equals `i * d`, backend 0 always has delay 0, and the
schedule is deterministic; it is strictly increasing whenever the stagger
interval `d` is positive. -/
theorem C3_stagger_schedule (d : Int) (i : Nat) :
    delayFor d i = (i : Int) * d
      ∧ delayFor d 0 = 0
      ∧ (0 < d → ∀ i2 j2 : Nat, i2 < j2 → delayFor d i2 < delayFor d j2) := by
  refine ⟨rfl, by simp [delayFor], fun hd i2 j2 hij => ?_⟩
  rw [delayFor, delayFor]
  have hcast : (i2 : Int) < (j2 : Int) := by exact_mod_cast hij
  exact mul_lt_mul_of_pos_right hcast hd

/-- Witness for C3 amended at the default interval 7: position 2 gets
delay 14, position 0 gets 0, and delays increase from position 1 to 2. -/
theorem C3_stagger_schedule_witness :
    delayFor 7 2 = 14 ∧ delayFor 7 0 = 0
      ∧ delayFor 7 1 < delayFor 7 2 := by
  have h := C3_stagger_schedule 7 2
  exact ⟨by rw [h.1]; norm_num, h.2.1, h.2.2 (by norm_num) 1 2 (by omega)⟩

/-- C4 counterexample: when two workers of the same attempt both complete
with `ok = true`, the earlier one's payload is returned, but the later
success is NOT recorded in the attempt's outcome list — the loop over
completions has already returned, so `all_results` holds only the entry
of the winner, contradicting the claim that the later success is still
collected. -/
theorem C4_counterexample :
    (attemptRun [cWinA, cWinB]).returned = some ("hello", "A", 2)
      ∧ cWinB.outcome.success = true
      ∧ cWinB.outcome.cancelled = false
      ∧ entryOf cWinB ∉ (attemptRun [cWinA, cWinB]).all_results := by
  refine ⟨rfl, rfl, rfl, ?_⟩
  have hres : (attemptRun [cWinA, cWinB]).all_results = [entryOf cWinA] := rfl
  rw [hres]
  simp [entryOf, cWinA, cWinB]

/-- C4 amended: if two workers of the same attempt both complete with
`ok = true`, only the earlier-completing one's payload is ever returned;
the later success's outcome is not recorded in the attempt's outcome
list — the scheduler stops observing completions once the winner is
declared, so both the returned value and the collected results are those
at winner-declaration time. -/
theorem C4_later_success_not_recorded (xs ys : List Completion)
    (c2 : Completion) (hwin : (firstWinner xs).isSome = true) :
    (attemptRun (xs ++ c2 :: ys)).returned = (attemptRun xs).returned
      ∧ (attemptRun (xs ++ c2 :: ys)).all_results = (attemptRun xs).all_results
      ∧ (attemptRun xs).returned
          = (firstWinner xs).map
              (fun c => (c.outcome.message, c.outcome.flow_id, c.obsTime)) := by
  obtain ⟨c, hc⟩ := Option.isSome_iff_exists.mp hwin
  have hsome : (attemptRun xs).returned.isSome := by
    rw [attemptRun_returned, hc]
    rfl
  have hfroz := attemptRun_append_frozen xs (c2 :: ys) hsome
  exact ⟨by rw [hfroz], by rw [hfroz], attemptRun_returned xs⟩

/-- Witness for C4 amended: with winner "A" already declared, appending the
later success "B" changes neither the returned payload nor the collected
outcome list. -/
theorem C4_later_success_not_recorded_witness :
    (attemptRun ([cWinA] ++ cWinB :: [])).returned = some ("hello", "A", 2)
      ∧ (attemptRun ([cWinA] ++ cWinB :: [])).all_results
          = (attemptRun [cWinA]).all_results := by
  have h := C4_later_success_not_recorded [cWinA] [] cWinB rfl
  exact ⟨by rw [h.1, h.2.2]; rfl, h.2.1⟩

/-- A concrete injective session-id supply for witnesses: the n-th id is a
string of n copies of one character. -/
def wIds (n : Nat) : String :=
  ⟨List.replicate n 'x'⟩

/-- The witness id supply is injective, as a model of distinct uuid4
draws. -/
theorem wIds_injective : Function.Injective wIds := by
  intro a b h
  have h2 := congrArg (fun s => s.data.length) h
  simpa [wIds] using h2

/-- C5: when every Invoker call of attempt `k` (and of the attempts before
it, so that the loop reaches `k`) fails or yields an empty result, attempt
`k` is reported failed (nothing returned), each of the attempts 1..k is
recorded with the unconditional cooldown slept after it, the loop then
starts attempt `k + 1` with the freshly drawn session id `ids k`, different
from attempt `k`'s id `ids (k - 1)`, and in total at most `max_retries`
attempts are ever performed. -/
theorem C5_all_fail_triggers_retry (flowIds : List String)
    (input_message : String) (stagger_delay : Int)
    (inputs : Nat → Nat → WorkerInput) (orders : Nat → List Nat)
    (ids : Nat → String) (max_retries k : Nat)
    (hk1 : 1 ≤ k) (hk2 : k < max_retries)
    (hinj : Function.Injective ids)
    (hfail : ∀ t, t ≤ k → ∀ j ∈ orders t, invokeSuccess (inputs t j).inv = false) :
    (attemptRun (attemptCompletions flowIds input_message (ids (k - 1))
        stagger_delay (inputs k) (orders k))).returned = none
      ∧ (∃ tail,
          (call_langflow_staggered_race flowIds input_message stagger_delay
              inputs orders ids max_retries).2
            = (List.range' 1 k).map
                (fun t => ⟨t, ids (t - 1),
                  attemptRun (attemptCompletions flowIds input_message
                    (ids (t - 1)) stagger_delay (inputs t) (orders t)), true⟩)
              ++ tail
          ∧ ∃ slept tail2, tail
              = ⟨k + 1, ids k,
                  attemptRun (attemptCompletions flowIds input_message (ids k)
                    stagger_delay (inputs (k + 1)) (orders (k + 1))),
                  slept⟩ :: tail2)
      ∧ ids k ≠ ids (k - 1)
      ∧ (call_langflow_staggered_race flowIds input_message stagger_delay
          inputs orders ids max_retries).2.length ≤ max_retries := by
  have hatt : ∀ t, t ≤ k →
      (attemptRun (attemptCompletions flowIds input_message (ids (t - 1))
        stagger_delay (inputs t) (orders t))).returned = none :=
    fun t ht => attempt_nowinner_of_invoker_fail _ _ _ _ _ _ (hfail t ht)
  refine ⟨hatt k (le_refl k), ?_, ?_, ?_⟩
  · rw [call_langflow_staggered_race]
    rw [raceLoop_fail_to _ _ _ _ k max_retries 1 hk2
      (fun t ht1 ht2 => hatt t (by omega))]
    obtain ⟨r2, hr2⟩ : ∃ r2, max_retries - k = r2 + 1 := ⟨max_retries - k - 1, by omega⟩
    obtain ⟨slept, tail2, htail⟩ := raceLoop_head
      (fun t => attemptCompletions flowIds input_message (ids (t - 1))
        stagger_delay (inputs t) (orders t)) ids max_retries flowIds.length r2 (1 + k)
    refine ⟨_, rfl, slept, tail2, ?_⟩
    rw [← hr2] at htail
    rw [htail]
    have hadd : 1 + k = k + 1 := by omega
    rw [hadd]
    rfl
  · intro h
    have h2 := hinj h
    omega
  · rw [call_langflow_staggered_race]
    exact raceLoop_len _ _ _ _ _ _

/-- Witness for C5: two flows, every backend call erroring, three retries
allowed; after attempt 1 fails the loop proceeds to attempt 2 with a new
id, and no more than three attempts exist. -/
theorem C5_all_fail_triggers_retry_witness :
    (attemptRun (attemptCompletions ["A", "B"] "q" (wIds 0) 7
        (fun _ => ⟨.error, 1, fun _ => false, 1⟩) [0, 1])).returned = none
      ∧ wIds 1 ≠ wIds 0
      ∧ (call_langflow_staggered_race ["A", "B"] "q" 7
          (fun _ _ => ⟨.error, 1, fun _ => false, 1⟩) (fun _ => [0, 1]) wIds
          3).2.length ≤ 3 := by
  have h := C5_all_fail_triggers_retry ["A", "B"] "q" 7
    (fun _ _ => ⟨.error, 1, fun _ => false, 1⟩) (fun _ => [0, 1]) wIds 3 1
    (by omega) (by omega) wIds_injective (fun t ht j hj => rfl)
  exact ⟨h.1, h.2.2.1, h.2.2.2⟩

/-- C6: when all workers fail in every attempt, the retry loop terminates
with the terminal exhaustion failure reporting
`max_retries * len(FLOW_IDS)` workers attempted, and performs exactly
`max_retries` attempts, none after that. -/
theorem C6_exhaustion_terminal (flowIds : List String)
    (input_message : String) (stagger_delay : Int)
    (inputs : Nat → Nat → WorkerInput) (orders : Nat → List Nat)
    (ids : Nat → String) (max_retries : Nat)
    (hfail : ∀ t j, j ∈ orders t → invokeSuccess (inputs t j).inv = false) :
    (call_langflow_staggered_race flowIds input_message stagger_delay inputs
        orders ids max_retries).1
      = .exhausted (max_retries * flowIds.length)
      ∧ (call_langflow_staggered_race flowIds input_message stagger_delay
          inputs orders ids max_retries).2.length = max_retries := by
  have hatt : ∀ t,
      (attemptRun (attemptCompletions flowIds input_message (ids (t - 1))
        stagger_delay (inputs t) (orders t))).returned = none :=
    fun t => attempt_nowinner_of_invoker_fail _ _ _ _ _ _ (hfail t)
  rw [call_langflow_staggered_race,
    raceLoop_allfail _ _ _ _ max_retries 1 (fun t h1 h2 => hatt t)]
  constructor
  · rw [Nat.mul_comm]
  · rw [List.length_map, List.length_range']

/-- Witness for C6: two flows, three attempts allowed, every call failing:
the loop raises with 3 * 2 = 6 flows tried after exactly three attempts. -/
theorem C6_exhaustion_terminal_witness :
    (call_langflow_staggered_race ["A", "B"] "q" 7
        (fun _ _ => ⟨.error, 1, fun _ => false, 1⟩) (fun _ => [0, 1]) wIds
        3).1 = .exhausted 6
      ∧ (call_langflow_staggered_race ["A", "B"] "q" 7
          (fun _ _ => ⟨.error, 1, fun _ => false, 1⟩) (fun _ => [0, 1]) wIds
          3).2.length = 3 := by
  have h := C6_exhaustion_terminal ["A", "B"] "q" 7
    (fun _ _ => ⟨.error, 1, fun _ => false, 1⟩) (fun _ => [0, 1]) wIds 3
    (fun t j hj => rfl)
  exact ⟨h.1, h.2⟩

/-- C7: within every attempt, the winner event starts fresh (false in the
initial state, and every recorded attempt's final state is recomputed from
that fresh initial state), ends set exactly when a first non-cancelled
success was observed, is never unset once set (appending further
completions keeps it set), and the only step that changes it is the
scheduler's winner declaration on a non-cancelled success observed while
nothing had been returned — workers only ever read it. -/
theorem C7_winner_event_invariants :
    initState.winner_event = false
      ∧ (∀ cos, (attemptRun cos).winner_event = (firstWinner cos).isSome)
      ∧ (∀ cos extra, (attemptRun cos).winner_event = true →
          (attemptRun (cos ++ extra)).winner_event = true)
      ∧ (∀ s c, (stepOutcome s c).winner_event = s.winner_event
          ∨ ((stepOutcome s c).winner_event = true
              ∧ c.outcome.success = true ∧ c.outcome.cancelled = false
              ∧ s.returned = none))
      ∧ (∀ (flowIds : List String) (input_message : String)
          (stagger_delay : Int) (inputs : Nat → Nat → WorkerInput)
          (orders : Nat → List Nat) (ids : Nat → String) (max_retries : Nat),
          ∀ x ∈ (call_langflow_staggered_race flowIds input_message
              stagger_delay inputs orders ids max_retries).2,
            x.finalState = attemptRun (attemptCompletions flowIds
              input_message (ids (x.attemptNo - 1)) stagger_delay
              (inputs x.attemptNo) (orders x.attemptNo))) := by
  refine ⟨rfl, attemptRun_event, ?_, ?_, ?_⟩
  · intro cos extra h
    have h2 : (firstWinner cos).isSome = true := by
      rw [← attemptRun_event]
      exact h
    obtain ⟨c, hc⟩ := Option.isSome_iff_exists.mp h2
    have h3 : (attemptRun cos).returned.isSome = true := by
      rw [attemptRun_returned, hc]
      rfl
    rw [attemptRun_append_frozen cos extra h3]
    exact h
  · intro s c
    by_cases hr : s.returned.isSome
    · left
      rw [stepOutcome_frozen s c hr]
    · by_cases hc : c.outcome.cancelled
      · left
        simp [stepOutcome, hc]
      · by_cases hs : c.outcome.success && !s.winner_found
        · right
          have hnone : s.returned = none := Option.not_isSome_iff_eq_none.mp hr
          refine ⟨?_, ?_, by simpa using hc, hnone⟩
          · simp [stepOutcome, hr, hc, hs]
          · exact ((Bool.and_eq_true _ _).mp hs).1
        · left
          simp [stepOutcome, hr, hc, hs]
  · intro flowIds input_message stagger_delay inputs orders ids max_retries x hx
    rw [call_langflow_staggered_race] at hx
    exact (raceLoop_records _ _ _ _ max_retries 1 x hx).1

/-- Witness for C7: after the first success of a concrete attempt the event
is set, and it stays set when a cancelled completion arrives afterwards. -/
theorem C7_winner_event_invariants_witness :
    (attemptRun [cFailC, cWinA]).winner_event = true
      ∧ (attemptRun ([cFailC, cWinA] ++ [cCanD])).winner_event = true := by
  have h := C7_winner_event_invariants
  have h1 : (attemptRun [cFailC, cWinA]).winner_event = true := by
    rw [h.2.1 [cFailC, cWinA]]
    rfl
  exact ⟨h1, h.2.2.1 [cFailC, cWinA] [cCanD] h1⟩

/-- C8: individual worker errors (timeout, transport/HTTP error, or an
unparseable response) never escape as exceptions: the worker is a total
function producing exactly one outcome, and every error produces the tuple
with `ok = false` and an empty payload. -/
theorem C8_worker_errors_are_data (flow_id input_message session_id : String)
    (d : Int) (sig : Nat → Bool) (inv : InvokeOutcome) (el : ℚ)
    (hw : waitLoop true sig (numPolls d) 0 = .proceed)
    (hf : invokeSuccess inv = false) :
    call_single_flow_with_delay flow_id input_message session_id d true sig
        inv el = ⟨false, flow_id, "", el, false⟩
      ∧ ∃! o : WorkerOutcome,
          call_single_flow_with_delay flow_id input_message session_id d true
            sig inv el = o := by
  constructor
  · cases inv with
    | response dta =>
      cases hx : extract_message_from_response dta with
      | str s =>
        have hcond : (s != "" && pyStrip s != "") = false := by
          simp only [invokeSuccess, hx] at hf
          exact hf
        simp [call_single_flow_with_delay.eq_def, hw, hx, hcond]
      | null =>
        simp [call_single_flow_with_delay.eq_def, hw, hx]
      | bool b =>
        simp [call_single_flow_with_delay.eq_def, hw, hx]
      | num n =>
        simp [call_single_flow_with_delay.eq_def, hw, hx]
      | arr l =>
        simp [call_single_flow_with_delay.eq_def, hw, hx]
      | obj l =>
        simp [call_single_flow_with_delay.eq_def, hw, hx]
    | timeout =>
      simp [call_single_flow_with_delay.eq_def, hw]
    | error =>
      simp [call_single_flow_with_delay.eq_def, hw]
  · exact ⟨_, rfl, fun o ho => ho.symm⟩

/-- Witness for C8: a transport error on a zero-delay worker yields the
failure tuple with empty payload. -/
theorem C8_worker_errors_are_data_witness :
    call_single_flow_with_delay "A" "q" "s" 0 true (fun _ => false) .error 2
      = ⟨false, "A", "", 2, false⟩ :=
  (C8_worker_errors_are_data "A" "q" "s" 0 (fun _ => false) .error 2 rfl rfl).1

/-- A parsed response whose extracted message text is a single space:
non-empty, but stripped empty. -/
def respWS : JValue :=
  .obj [("outputs", .arr [.obj [("outputs", .arr [.obj [("results",
    .obj [("message", .obj [("text", .str " ")])])]])]])]

/-- C9 counterexample: the claim says a non-empty extracted payload text
yields `ok = true`, but a whitespace-only payload (here a single space) is
non-empty yet classified as a failure, because the code additionally
requires `message_text.strip()` to be truthy. -/
theorem C9_counterexample :
    extract_message_from_response respWS = .str " "
      ∧ (" " : String) ≠ ""
      ∧ (call_single_flow_with_delay "A" "q" "s" 0 true (fun _ => false)
          (.response respWS) 1).success = false
      ∧ (call_single_flow_with_delay "A" "q" "s" 0 true (fun _ => false)
          (.response respWS) 1).message = "" := by
  refine ⟨rfl, by decide, rfl, rfl⟩

/-- C9 amended: over a successful transport, if the extracted payload text
is non-empty and still non-empty after stripping whitespace then the
worker's outcome is `ok = true` with that payload; an empty or
whitespace-only payload yields `ok = false` with payload empty (as does an
unparseable one, whose extraction defaults to the empty string). -/
theorem C9_payload_classification (flow_id input_message session_id : String)
    (d : Int) (sig : Nat → Bool) (el : ℚ) (dta : JValue) (s : String)
    (hw : waitLoop true sig (numPolls d) 0 = .proceed)
    (hx : extract_message_from_response dta = .str s) :
    (s ≠ "" → pyStrip s ≠ "" →
      call_single_flow_with_delay flow_id input_message session_id d true sig
        (.response dta) el = ⟨true, flow_id, s, el, false⟩)
      ∧ (s = "" ∨ pyStrip s = "" →
        call_single_flow_with_delay flow_id input_message session_id d true
          sig (.response dta) el = ⟨false, flow_id, "", el, false⟩) := by
  constructor
  · intro h1 h2
    simp [call_single_flow_with_delay.eq_def, hw, hx, h1, h2]
  · intro h
    have hcond : (s != "" && pyStrip s != "") = false := by
      rcases h with h | h <;> simp [h]
    simp [call_single_flow_with_delay.eq_def, hw, hx, hcond]

/-- A parsed response whose extracted message text is "hi". -/
def respHi : JValue :=
  .obj [("outputs", .arr [.obj [("outputs", .arr [.obj [("results",
    .obj [("message", .obj [("text", .str "hi")])])]])]])]

/-- A parsed response whose extracted message text is empty. -/
def respEmpty : JValue :=
  .obj [("outputs", .arr [.obj [("outputs", .arr [.obj [("results",
    .obj [("message", .obj [("text", .str "")])])]])]])]

/-- Witness for C9 amended: a "hi" payload succeeds with that payload; an
empty payload fails with payload empty. -/
theorem C9_payload_classification_witness :
    call_single_flow_with_delay "A" "q" "s" 0 true (fun _ => false)
        (.response respHi) 2 = ⟨true, "A", "hi", 2, false⟩
      ∧ call_single_flow_with_delay "A" "q" "s" 0 true (fun _ => false)
          (.response respEmpty) 2 = ⟨false, "A", "", 2, false⟩ := by
  have h1 := C9_payload_classification "A" "q" "s" 0 (fun _ => false) 2
    respHi "hi" rfl rfl
  have h2 := C9_payload_classification "A" "q" "s" 0 (fun _ => false) 2
    respEmpty "" rfl rfl
  exact ⟨h1.1 (by decide) (by decide), h2.2 (Or.inl rfl)⟩

/-- C10: a worker whose computed start delay is not positive (in particular
the position-0 backend, whose delay is always 0) skips the polling loop
entirely: its wait completes for every possible signal observation, it
invokes the backend exactly once, and its outcome does not depend on the
signal at all — even one that is already set. -/
theorem C10_nonpositive_delay (flow_id input_message session_id : String)
    (d stg : Int) (hd : d ≤ 0) (hasEvent : Bool) (sig sig2 : Nat → Bool)
    (inv : InvokeOutcome) (el : ℚ) :
    waitLoop hasEvent sig (numPolls d) 0 = .proceed
      ∧ workerInvocations d hasEvent sig = 1
      ∧ call_single_flow_with_delay flow_id input_message session_id d
          hasEvent sig inv el
        = call_single_flow_with_delay flow_id input_message session_id d
            hasEvent sig2 inv el
      ∧ delayFor stg 0 = 0 := by
  have hz : numPolls d = 0 := by
    rw [numPolls, if_neg (by omega)]
  refine ⟨by rw [hz]; rfl, by rw [workerInvocations, hz]; rfl, ?_,
    by simp [delayFor]⟩
  rw [call_single_flow_with_delay.eq_def, call_single_flow_with_delay.eq_def,
    hz]
  rfl

/-- Witness for C10: with delay 0 and the signal already set at every poll,
the worker still proceeds, invokes once, and behaves as with a clear
signal. -/
theorem C10_nonpositive_delay_witness :
    waitLoop true (fun _ => true) (numPolls 0) 0 = .proceed
      ∧ workerInvocations 0 true (fun _ => true) = 1
      ∧ call_single_flow_with_delay "A" "q" "s" 0 true (fun _ => true)
          .timeout 2
        = call_single_flow_with_delay "A" "q" "s" 0 true (fun _ => false)
            .timeout 2 := by
  have h := C10_nonpositive_delay "A" "q" "s" 0 7 (by omega) true
    (fun _ => true) (fun _ => false) .timeout 2
  exact ⟨h.1, h.2.1, h.2.2.1⟩

end LangflowRace
